import Mathlib

/-!
Shallow embedding of the pairing core of the hassmpris agent:
the time-and-size-bounded association store (src/hassmpris/security/util.py,
class TimedDict), the ECDH exchange servicer (src/hassmpris/security/ecdh.py)
and the MASC certificate-issuance servicer (src/hassmpris/security/masc.py).

Python dictionaries preserve insertion order; a TimedDict is therefore
embedded as a list of (key, timestamp, value) triples in insertion order.
Wall-clock time (time.time()) is passed to every operation explicitly as an
integer now; the timeout is the integer passed to the constructor.
External cryptographic libraries (ChaCha20Poly1305 from the cryptography
package, the blindecdh key agreement) are modelled symbolically by their
documented contracts; everything else is translated line by line from the
source.
-/

namespace HassMpris

/-- Entries of the backing dict: key, then the (timestamp, value) pair that
TimedDict.__setitem__ stores as the real dict value. -/
abbrev Entry (K V : Type) := K × Int × V

/-- Lookup in a plain Python dict (dict.__getitem__, returning the stored
(timestamp, value) pair, none standing for KeyError). -/
def dictGet? {K V : Type} [DecidableEq K] : List (Entry K V) → K → Option (Int × V)
  | [], _ => none
  | e :: rest, k => if e.1 = k then some e.2 else dictGet? rest k

/-- dict.__contains__ on the backing dict. -/
def dictContains {K V : Type} [DecidableEq K] (es : List (Entry K V)) (k : K) : Bool :=
  (dictGet? es k).isSome

/-- dict.__setitem__ on the backing dict: overwriting an existing key keeps
its position in insertion order, a new key is appended at the end. -/
def dictSet {K V : Type} [DecidableEq K] : List (Entry K V) → K → Int × V → List (Entry K V)
  | [], k, tv => [(k, tv.1, tv.2)]
  | e :: rest, k, tv => if e.1 = k then (k, tv.1, tv.2) :: rest else e :: dictSet rest k tv

/-- dict.__delitem__ on the backing dict (caller has checked presence). -/
def dictDel {K V : Type} [DecidableEq K] : List (Entry K V) → K → List (Entry K V)
  | [], _ => []
  | e :: rest, k => if e.1 = k then rest else e :: dictDel rest k

/-- The keys of the backing dict in insertion order. -/
def dictKeys {K V : Type} (es : List (Entry K V)) : List K := es.map Prod.fst

/-- TimedDict from src/hassmpris/security/util.py: a dict bounded by entry
age (timeout) and by entry count (size_limit).  The RLock field is not
represented; the scoped lock makes every embedded operation atomic. -/
structure TimedDict (K V : Type) where
  timeout : Int
  size_limit : Nat
  entries : List (Entry K V)

namespace TimedDict

variable {K V : Type} [DecidableEq K]

/-- The expiry loop of TimedDict.__trim_timed_out_and_oversized: every entry
with now - then > timeout is deleted. -/
def trimExpired (timeout now : Int) (es : List (Entry K V)) : List (Entry K V) :=
  es.filter fun e => decide (now - e.2.1 ≤ timeout)

/-- The capacity loop of TimedDict.__trim_timed_out_and_oversized: while the
dict is larger than the limit, the first (oldest-inserted) key is deleted.
With a negative limit the Python loop would fail on the empty dict; the
stores in this repository have size_limit 4 and 16, where this is
unreachable. -/
def evictOldest (limit : Int) : List (Entry K V) → List (Entry K V)
  | [] => []
  | e :: rest =>
    if (rest.length + 1 : Int) > limit then evictOldest limit rest else e :: rest

/-- TimedDict.__trim_timed_out_and_oversized.  The callers in the source
never pass the key argument, so it defaults to Python None, modelled as
Option.none; None is never a stored key in this repository. -/
def trim_timed_out_and_oversized (d : TimedDict K V) (minusone : Bool) (key : Option K)
    (now : Int) : TimedDict K V :=
  let es1 := trimExpired d.timeout now d.entries
  let minusone1 := minusone && !(match key with
    | none => false
    | some k => dictContains es1 k)
  let limit : Int := (d.size_limit : Int) - (if minusone1 then 1 else 0)
  { d with entries := evictOldest limit es1 }

/-- TimedDict.__setitem__: trim (with minusone=True and no key), then store
(now, value) under the key in the backing dict. -/
def setitem (d : TimedDict K V) (now : Int) (k : K) (v : V) : TimedDict K V :=
  let d1 := d.trim_timed_out_and_oversized true none now
  { d1 with entries := dictSet d1.entries k (now, v) }

/-- TimedDict.__getitem__: trim (with minusone=False), then plain dict
lookup; none models the KeyError on a missing key. -/
def getitem (d : TimedDict K V) (now : Int) (k : K) : TimedDict K V × Option V :=
  let d1 := d.trim_timed_out_and_oversized false none now
  (d1, (dictGet? d1.entries k).map Prod.snd)

/-- TimedDict.__contains__: trim (with minusone=True and no key), then plain
dict membership. -/
def containsitem (d : TimedDict K V) (now : Int) (k : K) : TimedDict K V × Bool :=
  let d1 := d.trim_timed_out_and_oversized true none now
  (d1, dictContains d1.entries k)

/-- Deletion: TimedDict does not override dict.__delitem__, so deleting
trims nothing; the Bool is False when the key was absent (KeyError). -/
def delitem (d : TimedDict K V) (k : K) : TimedDict K V × Bool :=
  if dictContains d.entries k then
    ({ d with entries := dictDel d.entries k }, true)
  else
    (d, false)

/-- Key uniqueness of the backing Python dict. -/
def WF (d : TimedDict K V) : Prop := (dictKeys d.entries).Nodup

/-- All stored entries are young enough at time now. -/
def entriesLive (now : Int) (d : TimedDict K V) : Prop :=
  ∀ e ∈ d.entries, now - e.2.1 ≤ d.timeout

/-- The entry count does not exceed the capacity. -/
def withinCapacity (d : TimedDict K V) : Prop :=
  d.entries.length ≤ d.size_limit

instance (now : Int) (d : TimedDict K V) : Decidable (d.entriesLive now) :=
  inferInstanceAs (Decidable (∀ e ∈ d.entries, now - e.2.1 ≤ d.timeout))

instance (d : TimedDict K V) : Decidable d.withinCapacity :=
  inferInstanceAs (Decidable (d.entries.length ≤ d.size_limit))

instance (d : TimedDict K V) : Decidable d.WF :=
  inferInstanceAs (Decidable (dictKeys d.entries).Nodup)

end TimedDict

/-! Wire bytes and the symbolic model of the external cryptographic
libraries.  ChaCha20Poly1305 (from the cryptography package) is modelled as
an ideal AEAD: a ciphertext is an opaque term recording the key, nonce and
associated data it was sealed under, and decryption succeeds exactly when
all three match, per the AEAD contract the library documents.  PEM
serialization of X.509 artifacts is modelled as an injective tagged
encoding whose decoder fails on anything else. -/

/-- Byte strings on the wire. -/
abbrev Bytes := List Nat

/-- The gRPC status codes used by the two servicers. -/
inductive StatusCode
  | PERMISSION_DENIED
  | UNAUTHENTICATED
  | INVALID_ARGUMENT
deriving DecidableEq, Repr

/-- EPERM = grpc.StatusCode.PERMISSION_DENIED in masc.py and ecdh.py. -/
def EPERM : StatusCode := StatusCode.PERMISSION_DENIED

/-- EWAIT = grpc.StatusCode.UNAUTHENTICATED in masc.py. -/
def EWAIT : StatusCode := StatusCode.UNAUTHENTICATED

/-- EINVAL = grpc.StatusCode.INVALID_ARGUMENT in masc.py. -/
def EINVAL : StatusCode := StatusCode.INVALID_ARGUMENT

/-- What one servicer call looks like from the wire: a reply, a
context.abort(code, details), or an unhandled Python exception inside the
handler (which the gRPC framework surfaces to the caller as status
UNKNOWN). -/
inductive RpcOutcome (A : Type)
  | ok : A → RpcOutcome A
  | aborted : StatusCode → String → RpcOutcome A
  | crashed : String → RpcOutcome A
deriving DecidableEq, Repr

/-- Ideal-model ChaCha20Poly1305 ciphertext: records the key, nonce and
associated data under which the plaintext was sealed. -/
structure AEADCiphertext where
  key : Bytes
  nonce : Bytes
  aad : Bytes
  plaintext : Bytes
deriving DecidableEq, Repr

/-- chacha.encrypt(nonce, data, associated_data) for chacha built over key. -/
def chachaEncrypt (key nonce data aad : Bytes) : AEADCiphertext :=
  ⟨key, nonce, aad, data⟩

/-- chacha.decrypt(nonce, data, associated_data): succeeds exactly when the
key, nonce and associated data match the ones used to seal; none models the
InvalidTag exception. -/
def chachaDecrypt (key nonce : Bytes) (data : AEADCiphertext) (aad : Bytes) : Option Bytes :=
  if data.key = key ∧ data.nonce = nonce ∧ data.aad = aad then some data.plaintext
  else none

/-- X.509 certificate signing request, reduced to the fields the MASC core
reads: the subject name and the SubjectAlternativeName extension value. -/
structure CertificateSigningRequest where
  subject : Nat
  san : Nat
deriving DecidableEq, Repr

/-- X.509 certificate, reduced to the fields the MASC core produces. -/
structure Certificate where
  subject : Nat
  san : Nat
  issuer : Nat
deriving DecidableEq, Repr

/-- PEM.from_rsa_csr: injective PEM encoding of a CSR. -/
def PEM_from_rsa_csr (c : CertificateSigningRequest) : Bytes :=
  [0, c.subject, c.san]

/-- PEM.to_rsa_csr (load_pem_x509_csr): none models the parse exception on
bytes that are not a CSR in PEM form. -/
def PEM_to_rsa_csr (b : Bytes) : Option CertificateSigningRequest :=
  match b with
  | [0, s, n] => some ⟨s, n⟩
  | _ => none

/-- PEM.from_rsa_certificate: injective PEM encoding of a certificate. -/
def PEM_from_rsa_certificate (c : Certificate) : Bytes :=
  [1, c.subject, c.san, c.issuer]

/-- PEM.to_rsa_certificate (load_pem_x509_certificate). -/
def PEM_to_rsa_certificate (b : Bytes) : Option Certificate :=
  match b with
  | [1, s, n, i] => some ⟨s, n, i⟩
  | _ => none

/-- issue_certificate_from_csr from src/hassmpris/security/certs.py: the
issued certificate takes its subject and SubjectAlternativeName from the
CSR and its issuer from the subject of the root certificate, with the
fixed non-CA constraints and usages applied. -/
def issue_certificate_from_csr (csr : CertificateSigningRequest)
    (root_cert : Certificate) : Certificate :=
  ⟨csr.subject, csr.san, root_cert.subject⟩

/-- CompletedECDH from the blindecdh library: the local public key, the
remote public key and the derived shared secret. -/
structure CompletedECDH where
  public_key : Bytes
  remote_public_key : Bytes
  derived_key : Bytes
deriving DecidableEq, Repr

/-! The MASC servicer, src/hassmpris/security/masc.py. -/

/-- masc_pb2.IssueCertificateRequest.  The EncryptedCSR field carries an
AEAD ciphertext (symbolic model of the sealed bytes). -/
structure IssueCertificateRequest where
  EncryptedCSR : AEADCiphertext
  EncryptedCSRNonce : Bytes
deriving DecidableEq, Repr

/-- masc_pb2.IssueCertificateReply. -/
structure IssueCertificateReply where
  EncryptedClientCertificate : AEADCiphertext
  EncryptedClientCertificateNonce : Bytes
  EncryptedServerCertificate : AEADCiphertext
  EncryptedServerCertificateNonce : Bytes
deriving DecidableEq, Repr

/-- The mutable state of a MASCServicer: the pending-ECDH store (a
TimedDict with 60 second timeout and size limit 4, keyed by the gRPC peer
string) and the server certificate.  The signing key is implicit in
issue_certificate_from_csr and the issuance callback is passed to each call
(it is fixed at construction and never changes). -/
structure MASCServicer where
  ecdhs : TimedDict String (Option CompletedECDH)
  server_certificate : Certificate

/-- MASCServicer.__init__: a fresh servicer with an empty TimedDict(60, 4). -/
def MASCServicer.init (server_certificate : Certificate) : MASCServicer :=
  ⟨⟨60, 4, []⟩, server_certificate⟩

/-- MASCServicer.add_ecdh: store the (possibly None) completed ECDH for the
peer; None means server-side authentication is still pending. -/
def MASCServicer.add_ecdh (st : MASCServicer) (now : Int) (peer : String)
    (ecdh : Option CompletedECDH) : MASCServicer :=
  { st with ecdhs := st.ecdhs.setitem now peer ecdh }

/-- Fixed abort details from masc.py. -/
def detail_no_ecdh : String := "no corresponding ECDH"

/-- The pending detail: the only information the UNAUTHENTICATED reply
carries. -/
def detail_pending : String := "the user has not yet approved the ECDH exchange"

/-- Abort detail for an undecryptable CSR. -/
def detail_bad_decrypt : String := "cannot decrypt certificate signing request"

/-- Abort detail for a decrypted payload that is not a CSR. -/
def detail_bad_csr : String := "invalid certificate signing request to be signed"

/-- Abort detail when the issuance callback refuses. -/
def detail_cb_refused : String := "callback refused to sign the certificate"

/-- The body of MASCServicer.IssueCertificate after the scoped-lock block:
everything from the None check onward.  The store is not touched again
after the lock is released, so this part is a pure function of the consumed
entry, the request, the two freshly generated 12-byte nonces
(secrets.token_bytes(12), passed in explicitly) and the issuance
callback. -/
def MASCServicer.issueBody (server_certificate : Certificate)
    (cb : String → Certificate → Bool) (peer : String)
    (req : IssueCertificateRequest) (enc_cert_nonce enc_srv_nonce : Bytes)
    (ecdh : Option CompletedECDH) : RpcOutcome IssueCertificateReply :=
  match ecdh with
  | none => .aborted EWAIT detail_pending
  | some e =>
    match chachaDecrypt e.derived_key req.EncryptedCSRNonce req.EncryptedCSR
        req.EncryptedCSRNonce with
    | none => .aborted EPERM detail_bad_decrypt
    | some decrypted =>
      match PEM_to_rsa_csr decrypted with
      | none => .aborted EINVAL detail_bad_csr
      | some csr =>
        let cert := issue_certificate_from_csr csr server_certificate
        let certpem := PEM_from_rsa_certificate cert
        let enc_cert := chachaEncrypt e.derived_key enc_cert_nonce certpem enc_cert_nonce
        let enc_srv := chachaEncrypt e.derived_key enc_srv_nonce
          (PEM_from_rsa_certificate server_certificate) enc_srv_nonce
        let response : IssueCertificateReply :=
          ⟨enc_cert, enc_cert_nonce, enc_srv, enc_srv_nonce⟩
        if cb peer cert then .ok response
        else .aborted EPERM detail_cb_refused

/-- MASCServicer.IssueCertificate.  Under the scoped lock it reads and
deletes the entry for the calling peer (falling back to the test-only
sentinel peer "*"), aborting with PERMISSION_DENIED when both are missing;
the rest of the handler is issueBody and never touches the store again. -/
def MASCServicer.IssueCertificate (st : MASCServicer)
    (cb : String → Certificate → Bool) (peer : String)
    (req : IssueCertificateRequest) (now : Int)
    (enc_cert_nonce enc_srv_nonce : Bytes) :
    MASCServicer × RpcOutcome IssueCertificateReply :=
  let d1 := (st.ecdhs.getitem now peer).1
  match (st.ecdhs.getitem now peer).2 with
  | some ecdh =>
    ({ st with ecdhs := (d1.delitem peer).1 },
     MASCServicer.issueBody st.server_certificate cb peer req enc_cert_nonce
       enc_srv_nonce ecdh)
  | none =>
    let d2 := (d1.getitem now "*").1
    match (d1.getitem now "*").2 with
    | some ecdh =>
      ({ st with ecdhs := (d2.delitem "*").1 },
       MASCServicer.issueBody st.server_certificate cb peer req enc_cert_nonce
         enc_srv_nonce ecdh)
    | none =>
      ({ st with ecdhs := d2 }, .aborted EPERM detail_no_ecdh)

/-- The request MASCClient.MASC builds: the PEM of its CSR sealed under the
derived key with a freshly generated nonce used both as AEAD nonce and as
associated data, the nonce sent alongside in the clear. -/
def MASCClient_build_request (derived_key : Bytes) (csr : CertificateSigningRequest)
    (plaintext_nonce : Bytes) : IssueCertificateRequest :=
  ⟨chachaEncrypt derived_key plaintext_nonce (PEM_from_rsa_csr csr) plaintext_nonce,
   plaintext_nonce⟩

/-- The decryption MASCClient.MASC performs on a successful reply: each
ciphertext is opened under the derived key with the nonce returned next to
it, used again both as AEAD nonce and as associated data; none models the
fatal InvalidTag exception. -/
def MASCClient_decrypt_reply (derived_key : Bytes) (resp : IssueCertificateReply) :
    Option (Bytes × Bytes) :=
  match chachaDecrypt derived_key resp.EncryptedClientCertificateNonce
      resp.EncryptedClientCertificate resp.EncryptedClientCertificateNonce,
    chachaDecrypt derived_key resp.EncryptedServerCertificateNonce
      resp.EncryptedServerCertificate resp.EncryptedServerCertificateNonce with
  | some certdata, some srvdata => some (certdata, srvdata)
  | _, _ => none

/-! The ECDH servicer, src/hassmpris/security/ecdh.py. -/

/-- cryptography EllipticCurvePublicKey, symbolic. -/
structure EllipticCurvePublicKey where
  keyid : Nat
deriving DecidableEq, Repr

/-- The bytes of the ClientPubkey request, as the PEM loader of the
cryptography package classifies them: a PEM-encoded EC public key, a
PEM-encoded public key of another kind, or bytes that do not parse as a
public key at all. -/
inductive PubkeyWire
  | ecKeyPEM : Nat → PubkeyWire
  | otherKeyPEM : Nat → PubkeyWire
  | invalidPEM : Bytes → PubkeyWire
deriving DecidableEq, Repr

/-- The ValueError escaping PEM.to_ecpubkey on unparseable bytes. -/
def err_load_pem : String := "ValueError: Could not deserialize key data"

/-- The TypeError PEM.to_ecpubkey raises on a non-EC public key. -/
def err_not_ec : String := "TypeError: this PEM is not an elliptic curve public key"

/-- PEM.to_ecpubkey from src/hassmpris/security/certs.py:
load_pem_public_key (raising on unparseable bytes) followed by the
isinstance check that raises TypeError on a non-EC key. -/
def PEM_to_ecpubkey : PubkeyWire → Except String EllipticCurvePublicKey
  | .ecKeyPEM n => .ok ⟨n⟩
  | .otherKeyPEM _ => .error err_not_ec
  | .invalidPEM _ => .error err_load_pem

/-- The ephemeral key pair of one blindecdh ECDHProtocol run, symbolic. -/
structure ECDHKeyPair where
  priv : Nat
deriving DecidableEq, Repr

/-- The public half of the ephemeral pair (s.public_key), symbolic. -/
def ECDHKeyPair.public_key (s : ECDHKeyPair) : EllipticCurvePublicKey :=
  ⟨s.priv⟩

/-- ECDHProtocol.run from blindecdh: completes the agreement against the
remote public key, producing the CompletedECDH; symbolic shared secret. -/
def ECDHKeyPair.run (s : ECDHKeyPair) (remote : EllipticCurvePublicKey) : CompletedECDH :=
  ⟨[s.priv], [remote.keyid], [s.priv, remote.keyid]⟩

/-- ecdh_pb2.Ack, the empty acknowledgement message. -/
structure Ack where
deriving DecidableEq, Repr

/-- The mutable state of an ECDHServicer: the initiator-pubkey store, a
TimedDict with 60 second timeout and size limit 16, keyed by the gRPC peer
string.  The completion callback is fixed at construction and passed to
each call. -/
structure ECDHServicer where
  peers : TimedDict String EllipticCurvePublicKey

/-- ECDHServicer.__init__: a fresh servicer with an empty TimedDict(60, 16). -/
def ECDHServicer.init : ECDHServicer :=
  ⟨⟨60, 16, []⟩⟩

/-- ECDHServicer.ClientPubkey: parse the request bytes as an EC public key
and store the result under the peer key.  The right-hand side of the
assignment is evaluated first, so a parse exception escapes before the
store is touched and the handler crashes (gRPC reports UNKNOWN). -/
def ECDHServicer.ClientPubkey (st : ECDHServicer) (peer : String)
    (pubkey : PubkeyWire) (now : Int) : ECDHServicer × RpcOutcome Ack :=
  match PEM_to_ecpubkey pubkey with
  | .error e => (st, .crashed e)
  | .ok k => (⟨st.peers.setitem now peer k⟩, .ok ⟨⟩)

/-- Abort detail for a ServerPubkey call with no stored initiator key. -/
def detail_invalid_ecdh : String := "invalid ECDH"

/-- The TypeError raised by the single-argument context.abort call on the
rejection path of ServerPubkey: grpc.ServicerContext.abort requires both a
status code and a details string, and ecdh.py line 80 passes only the
string, so the handler crashes (gRPC reports UNKNOWN). -/
def err_abort_one_arg : String :=
  "TypeError: abort() missing 1 required positional argument: details"

/-- ECDHServicer.ServerPubkey: under the scoped lock, look up and delete
the stored initiator public key (missing means abort with
PERMISSION_DENIED); then generate an ephemeral pair (passed in explicitly),
complete the agreement, consult the completion callback, and on acceptance
return the ephemeral public key.  On callback rejection the code calls
context.abort with a single argument, which raises TypeError. -/
def ECDHServicer.ServerPubkey (st : ECDHServicer)
    (cb : String → CompletedECDH → Bool) (peer : String) (now : Int)
    (s : ECDHKeyPair) : ECDHServicer × RpcOutcome EllipticCurvePublicKey :=
  let d1 := (st.peers.getitem now peer).1
  match (st.peers.getitem now peer).2 with
  | none => (⟨d1⟩, .aborted EPERM detail_invalid_ecdh)
  | some peer_pubkey =>
    let d2 := (d1.delitem peer).1
    let complete := ECDHKeyPair.run s peer_pubkey
    if cb peer complete then (⟨d2⟩, .ok s.public_key)
    else (⟨d2⟩, .crashed err_abort_one_arg)

/-! Concrete states used by the witness and counterexample theorems.  The
TimedDict states are built through setitem, so they are reachable states of
the store. -/

/-- A server certificate for concrete scenarios. -/
def cert0 : Certificate := ⟨100, 101, 102⟩

/-- A certificate signing request for concrete scenarios. -/
def csr0 : CertificateSigningRequest := ⟨7, 8⟩

/-- A completed ECDH with derived key [9, 9] for concrete scenarios. -/
def ecdh0 : CompletedECDH := ⟨[1], [2], [9, 9]⟩

/-- Twelve-byte nonces, as secrets.token_bytes(12) returns. -/
def nonceA : Bytes := [0, 1, 2, 3, 4, 5, 6, 7, 8, 9, 10, 11]

/-- A second twelve-byte nonce. -/
def nonceB : Bytes := [1, 1, 2, 3, 4, 5, 6, 7, 8, 9, 10, 11]

/-- A third twelve-byte nonce. -/
def nonceC : Bytes := [2, 1, 2, 3, 4, 5, 6, 7, 8, 9, 10, 11]

/-- A MASC servicer whose store holds an approved ECDH for peerA,
registered through add_ecdh at time 0. -/
def masc0 : MASCServicer :=
  (MASCServicer.init cert0).add_ecdh 0 "peerA" (some ecdh0)

/-- A MASC servicer whose store holds the None placeholder for peerA
(verification still outstanding), registered through add_ecdh at time 0. -/
def mascPending0 : MASCServicer :=
  (MASCServicer.init cert0).add_ecdh 0 "peerA" none

/-- An IssueCertificate request sealed under the derived key of ecdh0. -/
def req0 : IssueCertificateRequest :=
  MASCClient_build_request ecdh0.derived_key csr0 nonceA

/-- An ECDH servicer whose store holds an initiator public key for peerA,
registered through ClientPubkey at time 0. -/
def ecdhServicer0 : ECDHServicer :=
  (ECDHServicer.init.ClientPubkey "peerA" (.ecKeyPEM 33) 0).1

/-- A TimedDict(1, 2) holding two entries inserted at time 0; at time 2
both entries are past the 1-second timeout. -/
def c3store : TimedDict Nat Nat :=
  ((⟨1, 2, []⟩ : TimedDict Nat Nat).setitem 0 1 10).setitem 0 2 20

/-- A full TimedDict(60, 2) holding keys 1 and 2, inserted at time 0 in
that order, both far from expiry. -/
def fullStore2 : TimedDict Nat Nat :=
  ((⟨60, 2, []⟩ : TimedDict Nat Nat).setitem 0 1 10).setitem 0 2 20

/-- A TimedDict(60, 2) with room to spare: one live entry under key 1. -/
def roomyStore : TimedDict Nat Nat :=
  (⟨60, 2, []⟩ : TimedDict Nat Nat).setitem 0 1 10

/-- A full, unexpired TimedDict(3, ...) scenario for the membership-query
claim: three live entries at distinct times. -/
def fullStore3 : TimedDict Nat Nat :=
  (((⟨60, 3, []⟩ : TimedDict Nat Nat).setitem 0 1 10).setitem 1 2 20).setitem 2 3 30

/-- The reply IssueCertificate is proved to return on the success path:
each certificate PEM sealed under the derived key with its own fresh
nonce, the nonce doubling as associated data and echoed in the clear. -/
def mascExpectedReply (derived_key : Bytes) (client_cert server_cert : Certificate)
    (enc_cert_nonce enc_srv_nonce : Bytes) : IssueCertificateReply :=
  ⟨chachaEncrypt derived_key enc_cert_nonce (PEM_from_rsa_certificate client_cert)
      enc_cert_nonce,
   enc_cert_nonce,
   chachaEncrypt derived_key enc_srv_nonce (PEM_from_rsa_certificate server_cert)
      enc_srv_nonce,
   enc_srv_nonce⟩

/-! Helper lemmas about the backing dict and the trim loops. -/

section DictLemmas

variable {K V : Type} [DecidableEq K]

theorem dictContains_eq_false_iff {es : List (Entry K V)} {k : K} :
    dictContains es k = false ↔ dictGet? es k = none := by
  unfold dictContains
  cases dictGet? es k <;> simp

theorem dictGet?_eq_none_iff {es : List (Entry K V)} {k : K} :
    dictGet? es k = none ↔ ∀ e ∈ es, e.1 ≠ k := by
  induction es with
  | nil => simp [dictGet?]
  | cons e rest ih =>
    by_cases h : e.1 = k
    · simp [dictGet?, h]
    · simp [dictGet?, h, ih]

theorem dictGet?_eq_none_of_sublist {es es1 : List (Entry K V)} {k : K}
    (hsub : es1.Sublist es) (h : dictGet? es k = none) : dictGet? es1 k = none := by
  rw [dictGet?_eq_none_iff] at h ⊢
  exact fun e he => h e (hsub.subset he)

theorem dictContains_eq_false_of_sublist {es es1 : List (Entry K V)} {k : K}
    (hsub : es1.Sublist es) (h : dictContains es k = false) :
    dictContains es1 k = false := by
  rw [dictContains_eq_false_iff] at h ⊢
  exact dictGet?_eq_none_of_sublist hsub h

theorem dictDel_sublist (es : List (Entry K V)) (k : K) :
    (dictDel es k).Sublist es := by
  induction es with
  | nil => simp [dictDel]
  | cons e rest ih =>
    by_cases h : e.1 = k
    · rw [dictDel, if_pos h]
      exact List.sublist_cons_self e rest
    · simpa [dictDel, h] using ih.cons₂ e

theorem dictGet?_dictDel_self {es : List (Entry K V)} {k : K}
    (hnd : (dictKeys es).Nodup) : dictGet? (dictDel es k) k = none := by
  induction es with
  | nil => simp [dictDel, dictGet?]
  | cons e rest ih =>
    simp only [dictKeys, List.map_cons, List.nodup_cons] at hnd
    by_cases h : e.1 = k
    · simp only [dictDel, if_pos h]
      rw [dictGet?_eq_none_iff]
      intro e1 he1 h1
      exact hnd.1 (h ▸ h1 ▸ List.mem_map_of_mem Prod.fst he1)
    · simp [dictDel, h, dictGet?, ih hnd.2]

theorem mem_dictSet {es : List (Entry K V)} {k : K} {tv : Int × V} {e : Entry K V}
    (h : e ∈ dictSet es k tv) : e ∈ es ∨ e = (k, tv.1, tv.2) := by
  induction es with
  | nil => simpa [dictSet] using h
  | cons e1 rest ih =>
    by_cases h1 : e1.1 = k
    · rcases (by simpa [dictSet, h1] using h) with h2 | h2
      · exact Or.inr (by simp [h2])
      · exact Or.inl (List.mem_cons_of_mem e1 h2)
    · rcases (by simpa [dictSet, h1] using h) with h2 | h2
      · exact Or.inl (by simp [h2])
      · rcases ih h2 with h3 | h3
        · exact Or.inl (List.mem_cons_of_mem e1 h3)
        · exact Or.inr h3

theorem dictSet_length_le (es : List (Entry K V)) (k : K) (tv : Int × V) :
    (dictSet es k tv).length ≤ es.length + 1 := by
  induction es with
  | nil => simp [dictSet]
  | cons e rest ih =>
    by_cases h : e.1 = k
    · simp [dictSet, h]
    · simp only [dictSet, if_neg h, List.length_cons]
      omega

theorem dictKeys_dictSet_of_contains {es : List (Entry K V)} {k : K} (tv : Int × V)
    (h : dictContains es k = true) : dictKeys (dictSet es k tv) = dictKeys es := by
  induction es with
  | nil => simp [dictContains, dictGet?] at h
  | cons e rest ih =>
    by_cases h1 : e.1 = k
    · simp only [dictSet, if_pos h1, dictKeys, List.map_cons]
      rw [h1]
    · have h2 : dictContains rest k = true := by
        simpa [dictContains, dictGet?, h1] using h
      simp [dictSet, h1, dictKeys] at ih ⊢
      exact ih h2

theorem dictGet?_dictSet_self (es : List (Entry K V)) (k : K) (tv : Int × V) :
    dictGet? (dictSet es k tv) k = some tv := by
  induction es with
  | nil => simp [dictSet, dictGet?]
  | cons e rest ih =>
    by_cases h : e.1 = k
    · simp [dictSet, h, dictGet?]
    · simp [dictSet, h, dictGet?, ih]

theorem dictSet_of_not_contains {es : List (Entry K V)} {k : K} (tv : Int × V)
    (h : dictContains es k = false) :
    dictSet es k tv = es ++ [(k, tv.1, tv.2)] := by
  induction es with
  | nil => simp [dictSet]
  | cons e rest ih =>
    rw [dictContains_eq_false_iff, dictGet?_eq_none_iff] at h
    have h1 : e.1 ≠ k := h e (List.mem_cons_self e rest)
    have h2 : dictContains rest k = false := by
      rw [dictContains_eq_false_iff, dictGet?_eq_none_iff]
      exact fun e1 he1 => h e1 (List.mem_cons_of_mem e he1)
    simp [dictSet, h1, ih h2]

end DictLemmas

section TrimLemmas

variable {K V : Type}

theorem trimExpired_sublist (t now : Int) (es : List (Entry K V)) :
    (TimedDict.trimExpired t now es).Sublist es :=
  List.filter_sublist es

theorem mem_trimExpired {t now : Int} {es : List (Entry K V)} {e : Entry K V}
    (h : e ∈ TimedDict.trimExpired t now es) : e ∈ es ∧ now - e.2.1 ≤ t := by
  have h1 := List.mem_filter.mp h
  exact ⟨h1.1, by simpa using h1.2⟩

theorem trimExpired_eq_self {t now : Int} {es : List (Entry K V)}
    (h : ∀ e ∈ es, now - e.2.1 ≤ t) : TimedDict.trimExpired t now es = es :=
  List.filter_eq_self.mpr fun e he => by simpa using h e he

theorem evictOldest_sublist (lim : Int) (es : List (Entry K V)) :
    (TimedDict.evictOldest lim es).Sublist es := by
  induction es with
  | nil => simp [TimedDict.evictOldest]
  | cons e rest ih =>
    by_cases h : ((rest.length + 1 : Int) > lim)
    · simpa [TimedDict.evictOldest, h] using ih.trans (List.sublist_cons_self e rest)
    · simp [TimedDict.evictOldest, h]

theorem evictOldest_length_le_or_nil (lim : Int) (es : List (Entry K V)) :
    ((TimedDict.evictOldest lim es).length : Int) ≤ lim ∨
      TimedDict.evictOldest lim es = [] := by
  induction es with
  | nil => exact Or.inr rfl
  | cons e rest ih =>
    by_cases h : ((rest.length + 1 : Int) > lim)
    · simpa [TimedDict.evictOldest, h] using ih
    · left
      simp only [TimedDict.evictOldest, if_neg h, List.length_cons]
      push_neg at h
      exact_mod_cast h

theorem evictOldest_eq_self {lim : Int} {es : List (Entry K V)}
    (h : (es.length : Int) ≤ lim) : TimedDict.evictOldest lim es = es := by
  cases es with
  | nil => rfl
  | cons e rest =>
    have h1 : ¬ ((rest.length + 1 : Int) > lim) := by
      simp only [List.length_cons] at h
      push_neg
      exact_mod_cast h
    simp [TimedDict.evictOldest, h1]

theorem evictOldest_eq_tail {lim : Int} {es : List (Entry K V)}
    (h : (es.length : Int) = lim + 1) : TimedDict.evictOldest lim es = es.tail := by
  cases es with
  | nil =>
    rfl
  | cons e rest =>
    have h1 : ((rest.length + 1 : Int) > lim) := by
      simp only [List.length_cons] at h
      push_cast at h
      omega
    have h2 : (rest.length : Int) ≤ lim := by
      simp only [List.length_cons] at h
      push_cast at h
      omega
    simp [TimedDict.evictOldest, h1, evictOldest_eq_self h2]

theorem trim_entries_sublist [DecidableEq K] (d : TimedDict K V) (m : Bool)
    (key : Option K) (now : Int) :
    (d.trim_timed_out_and_oversized m key now).entries.Sublist d.entries := by
  unfold TimedDict.trim_timed_out_and_oversized
  exact (evictOldest_sublist _ _).trans (trimExpired_sublist _ _ _)

theorem trim_timeout [DecidableEq K] (d : TimedDict K V) (m : Bool) (key : Option K)
    (now : Int) :
    (d.trim_timed_out_and_oversized m key now).timeout = d.timeout := rfl

theorem trim_size_limit [DecidableEq K] (d : TimedDict K V) (m : Bool) (key : Option K)
    (now : Int) :
    (d.trim_timed_out_and_oversized m key now).size_limit = d.size_limit := rfl

theorem entriesLive_trim [DecidableEq K] (d : TimedDict K V) (m : Bool) (key : Option K)
    (now : Int) :
    (d.trim_timed_out_and_oversized m key now).entriesLive now := by
  intro e he
  rw [trim_timeout]
  unfold TimedDict.trim_timed_out_and_oversized at he
  simp only at he
  exact (mem_trimExpired ((evictOldest_sublist _ _).subset he)).2

theorem WF_of_entries_sublist {d d1 : TimedDict K V}
    (hsub : d1.entries.Sublist d.entries) (h : d.WF) : d1.WF :=
  List.Nodup.sublist (hsub.map Prod.fst) h

theorem trim_true_none_entries [DecidableEq K] (d : TimedDict K V) (now : Int) :
    (d.trim_timed_out_and_oversized true none now).entries =
      TimedDict.evictOldest ((d.size_limit : Int) - 1)
        (TimedDict.trimExpired d.timeout now d.entries) := rfl

theorem trim_false_none_entries [DecidableEq K] (d : TimedDict K V) (now : Int) :
    (d.trim_timed_out_and_oversized false none now).entries =
      TimedDict.evictOldest ((d.size_limit : Int) - 0)
        (TimedDict.trimExpired d.timeout now d.entries) := rfl

end TrimLemmas

/-! Settlement of the TimedDict claims. -/

section TimedDictClaims

variable {K V : Type}

/-- C3 counterexample: the invariant does not hold around a delete.  The
store c3store is reached by two inserts into a TimedDict(1, 2) at time 0;
at time 2 a delete of key 2 succeeds, yet at the end of that delete (and
already at its start) the remaining entry for key 1 is two seconds old,
older than the 1-second TTL, because TimedDict does not override
dict.__delitem__ and deleting therefore evicts nothing. -/
theorem delitem_keeps_expired_entry :
    (c3store.delitem 2).2 = true ∧
    ¬ (c3store.delitem 2).1.entriesLive 2 ∧
    ¬ c3store.entriesLive 2 := by decide

/-- C3 (amended): at the end of every set, get and membership test executed
at time now on a store with nonnegative TTL and capacity at least 1, no
remaining entry is older than the TTL and the entry count does not exceed
the capacity; the eviction otherwise runs opportunistically inside those
operations, not by a background sweep, so nothing holds at the start of an
operation or across a delete. -/
theorem timed_ops_restore_invariant_at_end [DecidableEq K]
    (d : TimedDict K V) (now : Int) (k : K) (v : V)
    (ht : 0 ≤ d.timeout) (hc : 1 ≤ d.size_limit) :
    ((d.setitem now k v).entriesLive now ∧ (d.setitem now k v).withinCapacity) ∧
    ((d.getitem now k).1.entriesLive now ∧ (d.getitem now k).1.withinCapacity) ∧
    ((d.containsitem now k).1.entriesLive now ∧ (d.containsitem now k).1.withinCapacity) := by
  refine ⟨⟨?_, ?_⟩, ⟨?_, ?_⟩, ⟨?_, ?_⟩⟩
  · intro e he
    show now - e.2.1 ≤ d.timeout
    rcases mem_dictSet he with h1 | h1
    · exact entriesLive_trim d true none now e h1
    · rw [h1]
      simpa using ht
  · show (dictSet (d.trim_timed_out_and_oversized true none now).entries k (now, v)).length ≤
      d.size_limit
    rw [trim_true_none_entries]
    have h1 := dictSet_length_le
      (TimedDict.evictOldest ((d.size_limit : Int) - 1)
        (TimedDict.trimExpired d.timeout now d.entries)) k (now, v)
    rcases evictOldest_length_le_or_nil ((d.size_limit : Int) - 1)
        (TimedDict.trimExpired d.timeout now d.entries) with h2 | h2
    · omega
    · rw [h2]
      simpa [dictSet] using hc
  · exact entriesLive_trim d false none now
  · show (d.trim_timed_out_and_oversized false none now).withinCapacity
    unfold TimedDict.withinCapacity
    rw [trim_size_limit, trim_false_none_entries]
    rcases evictOldest_length_le_or_nil ((d.size_limit : Int) - 0)
        (TimedDict.trimExpired d.timeout now d.entries) with h | h
    · omega
    · rw [h]
      simp
  · exact entriesLive_trim d true none now
  · show (d.trim_timed_out_and_oversized true none now).withinCapacity
    unfold TimedDict.withinCapacity
    rw [trim_size_limit, trim_true_none_entries]
    rcases evictOldest_length_le_or_nil ((d.size_limit : Int) - 1)
        (TimedDict.trimExpired d.timeout now d.entries) with h | h
    · omega
    · rw [h]
      simp

/-- C3 witness: the amended invariant at a concrete store and time. -/
theorem timed_ops_restore_invariant_at_end_witness :
    (0 ≤ c3store.timeout ∧ 1 ≤ c3store.size_limit) ∧
    (((c3store.setitem 2 5 50).entriesLive 2 ∧ (c3store.setitem 2 5 50).withinCapacity) ∧
     ((c3store.getitem 2 5).1.entriesLive 2 ∧ (c3store.getitem 2 5).1.withinCapacity) ∧
     ((c3store.containsitem 2 5).1.entriesLive 2 ∧
      (c3store.containsitem 2 5).1.withinCapacity)) :=
  ⟨⟨by decide, by decide⟩,
   timed_ops_restore_invariant_at_end c3store 2 5 50 (by decide) (by decide)⟩

/-- C4: evaluating TimedDict.__setitem__ at the failing input.  fullStore2
is a TimedDict(60, 2) full of live entries for keys 1 and 2; overwriting
the already-present key 2 nevertheless evicts the unrelated oldest entry
(key 1), because __setitem__ never passes the incoming key to
__trim_timed_out_and_oversized, so the special case that would spare an
existing key is dead code. -/
theorem setitem_full_overwrite_evicts_oldest :
    dictContains fullStore2.entries 2 = true ∧
    fullStore2.entriesLive 0 ∧
    (fullStore2.setitem 0 2 21).entries = [(2, 0, 21)] ∧
    dictContains (fullStore2.setitem 0 2 21).entries 1 = false := by decide

/-- C9: a membership query is not read-only.  On a store holding exactly
size_limit unexpired entries, __contains__ trims with minusone=True and no
key, so the oldest entry in insertion order is evicted and size_limit - 1
entries remain. -/
theorem containsitem_evicts_oldest [DecidableEq K]
    (d : TimedDict K V) (now : Int) (k : K)
    (hlive : d.entriesLive now) (hfull : d.entries.length = d.size_limit) :
    (d.containsitem now k).1.entries = d.entries.tail ∧
    (d.containsitem now k).1.entries.length = d.size_limit - 1 := by
  have h1 : (d.containsitem now k).1.entries = d.entries.tail := by
    show (d.trim_timed_out_and_oversized true none now).entries = d.entries.tail
    rw [trim_true_none_entries, trimExpired_eq_self hlive]
    refine evictOldest_eq_tail ?_
    rw [hfull]
    omega
  refine ⟨h1, ?_⟩
  rw [h1, List.length_tail, hfull]

/-- C9 witness: the eviction on a concrete full store of three live
entries. -/
theorem containsitem_evicts_oldest_witness :
    (fullStore3.entriesLive 2 ∧ fullStore3.entries.length = fullStore3.size_limit) ∧
    ((fullStore3.containsitem 2 7).1.entries = fullStore3.entries.tail ∧
     (fullStore3.containsitem 2 7).1.entries.length = fullStore3.size_limit - 1) :=
  ⟨⟨by decide, by decide⟩, containsitem_evicts_oldest fullStore3 2 7 (by decide) (by decide)⟩

/-- C10 counterexample: overwriting an existing key does not always keep
its position.  fullStore2 is a full TimedDict(60, 2) with insertion order
[1, 2], all entries live; overwriting key 1 moves it to the end of the
insertion order (the trim inside __setitem__ evicts it first, and the
overwrite then re-appends it), so key 2 would now be evicted first. -/
theorem setitem_overwrite_position_lost_when_full :
    dictKeys fullStore2.entries = [1, 2] ∧
    fullStore2.entriesLive 5 ∧
    dictContains fullStore2.entries 1 = true ∧
    dictKeys (fullStore2.setitem 5 1 11).entries = [2, 1] := by decide

/-- C10 (amended): when the trim evicts nothing (all entries live and the
count strictly below capacity), overwriting an existing key refreshes its
timestamp and keeps the insertion order of the keys unchanged; and on
capacity overflow (full store of live entries, new key inserted) the entry
evicted is the first in insertion order, regardless of timestamps.  When
the store is full, the overwrite itself first evicts the oldest entry
(the defect recorded for the set claim), which is what the counterexample
exhibits. -/
theorem setitem_insertion_order {K V : Type} [DecidableEq K] :
    (∀ (d : TimedDict K V) (now : Int) (k : K) (v : V),
      d.entriesLive now → d.entries.length < d.size_limit →
      dictContains d.entries k = true →
      dictKeys (d.setitem now k v).entries = dictKeys d.entries ∧
      dictGet? (d.setitem now k v).entries k = some (now, v)) ∧
    (∀ (d : TimedDict K V) (now : Int) (k : K) (v : V),
      d.entriesLive now → d.entries.length = d.size_limit →
      dictContains d.entries k = false →
      (d.setitem now k v).entries = d.entries.tail ++ [(k, now, v)]) := by
  constructor
  · intro d now k v hlive hroom hmem
    have htrim : (d.trim_timed_out_and_oversized true none now).entries = d.entries := by
      rw [trim_true_none_entries, trimExpired_eq_self hlive]
      refine evictOldest_eq_self ?_
      omega
    constructor
    · show dictKeys (dictSet (d.trim_timed_out_and_oversized true none now).entries k (now, v)) =
        dictKeys d.entries
      rw [htrim, dictKeys_dictSet_of_contains _ hmem]
    · show dictGet? (dictSet (d.trim_timed_out_and_oversized true none now).entries k (now, v)) k =
        some (now, v)
      rw [htrim, dictGet?_dictSet_self]
  · intro d now k v hlive hfull hnew
    have htrim : (d.trim_timed_out_and_oversized true none now).entries = d.entries.tail := by
      rw [trim_true_none_entries, trimExpired_eq_self hlive]
      refine evictOldest_eq_tail ?_
      rw [hfull]
      omega
    have hnc : dictContains d.entries.tail k = false :=
      dictContains_eq_false_of_sublist (List.tail_sublist d.entries) hnew
    show dictSet (d.trim_timed_out_and_oversized true none now).entries k (now, v) =
      d.entries.tail ++ [(k, now, v)]
    rw [htrim, dictSet_of_not_contains _ hnc]

/-- C10 witness: both parts at concrete stores. -/
theorem setitem_insertion_order_witness :
    (roomyStore.entriesLive 5 ∧ roomyStore.entries.length < roomyStore.size_limit ∧
     dictContains roomyStore.entries 1 = true ∧
     dictKeys (roomyStore.setitem 5 1 11).entries = dictKeys roomyStore.entries ∧
     dictGet? (roomyStore.setitem 5 1 11).entries 1 = some (5, 11)) ∧
    (fullStore2.entriesLive 5 ∧ fullStore2.entries.length = fullStore2.size_limit ∧
     dictContains fullStore2.entries 3 = false ∧
     (fullStore2.setitem 5 3 30).entries = fullStore2.entries.tail ++ [(3, 5, 30)]) := by
  refine ⟨⟨by decide, by decide, by decide, ?_, ?_⟩, ⟨by decide, by decide, by decide, ?_⟩⟩
  · exact ((@setitem_insertion_order Nat Nat _).1 roomyStore 5 1 11 (by decide) (by decide)
      (by decide)).1
  · exact ((@setitem_insertion_order Nat Nat _).1 roomyStore 5 1 11 (by decide) (by decide)
      (by decide)).2
  · exact (@setitem_insertion_order Nat Nat _).2 fullStore2 5 3 30 (by decide) (by decide)
      (by decide)

end TimedDictClaims

/-! Helper lemmas about the store operations as the servicers use them. -/

section StoreOps

variable {K V : Type} [DecidableEq K]

theorem getitem_fst (d : TimedDict K V) (now : Int) (k : K) :
    (d.getitem now k).1 = d.trim_timed_out_and_oversized false none now := rfl

theorem getitem_snd_eq (d : TimedDict K V) (now : Int) (k : K) :
    (d.getitem now k).2 = (dictGet? (d.getitem now k).1.entries k).map Prod.snd := rfl

theorem getitem_snd_none_of_contains_false {d : TimedDict K V} {k : K}
    (h : dictContains d.entries k = false) (now : Int) :
    (d.getitem now k).2 = none := by
  rw [getitem_snd_eq]
  have h1 : dictContains (d.getitem now k).1.entries k = false := by
    rw [getitem_fst]
    exact dictContains_eq_false_of_sublist (trim_entries_sublist d false none now) h
  rw [dictContains_eq_false_iff] at h1
  rw [h1]
  rfl

theorem getitem_fst_WF {d : TimedDict K V} (h : d.WF) (now : Int) (k : K) :
    (d.getitem now k).1.WF := by
  rw [getitem_fst]
  exact WF_of_entries_sublist (trim_entries_sublist d false none now) h

theorem getitem_fst_entries_sublist (d : TimedDict K V) (now : Int) (k : K) :
    (d.getitem now k).1.entries.Sublist d.entries := by
  rw [getitem_fst]
  exact trim_entries_sublist d false none now

theorem getitem_snd_some_contains {d : TimedDict K V} {k : K} {now : Int} {v : V}
    (h : (d.getitem now k).2 = some v) :
    dictContains (d.getitem now k).1.entries k = true := by
  rw [getitem_snd_eq] at h
  rcases Option.map_eq_some'.mp h with ⟨tv, htv, _⟩
  simp [dictContains, htv]

theorem delitem_fst_of_contains {d : TimedDict K V} {k : K}
    (h : dictContains d.entries k = true) :
    (d.delitem k).1 = { d with entries := dictDel d.entries k } := by
  simp [TimedDict.delitem, h]

theorem delitem_fst_contains_false {d : TimedDict K V} {k : K}
    (hwf : d.WF) (h : dictContains d.entries k = true) :
    dictContains (d.delitem k).1.entries k = false := by
  rw [delitem_fst_of_contains h]
  rw [dictContains_eq_false_iff]
  exact dictGet?_dictDel_self hwf

theorem delitem_fst_entries_sublist (d : TimedDict K V) (k : K) :
    (d.delitem k).1.entries.Sublist d.entries := by
  unfold TimedDict.delitem
  by_cases h : dictContains d.entries k
  · simp only [h, if_pos]
    exact dictDel_sublist d.entries k
  · simp [h]

end StoreOps

/-- A ServerPubkey call for a peer with no stored initiator key aborts with
PERMISSION_DENIED. -/
theorem ServerPubkey_of_absent (st : ECDHServicer) (cb : String → CompletedECDH → Bool)
    (peer : String) (now : Int) (s : ECDHKeyPair)
    (h : dictContains st.peers.entries peer = false) :
    (st.ServerPubkey cb peer now s).2 = .aborted EPERM detail_invalid_ecdh := by
  unfold ECDHServicer.ServerPubkey
  rw [getitem_snd_none_of_contains_false h now]

/-- An IssueCertificate call for a peer with no pending entry, on a store
also holding no sentinel "*" entry, aborts with PERMISSION_DENIED. -/
theorem IssueCertificate_of_absent (st : MASCServicer) (cb : String → Certificate → Bool)
    (peer : String) (req : IssueCertificateRequest) (now : Int) (n1 n2 : Bytes)
    (h : dictContains st.ecdhs.entries peer = false)
    (hstar : dictContains st.ecdhs.entries "*" = false) :
    (st.IssueCertificate cb peer req now n1 n2).2 = .aborted EPERM detail_no_ecdh := by
  have h2 : dictContains (st.ecdhs.getitem now peer).1.entries "*" = false :=
    dictContains_eq_false_of_sublist (getitem_fst_entries_sublist st.ecdhs now peer) hstar
  unfold MASCServicer.IssueCertificate
  rw [getitem_snd_none_of_contains_false h now]
  simp only [getitem_snd_none_of_contains_false h2 now]

/-! Settlement of the servicer claims. -/

section ServicerClaims

/-- C1: for every peer with a pending entry in the MASC store (and no
test-only sentinel "*" entry present), the entry is consumed by the call
that reads it, whatever the outcome of the rest of the handler (the store
that every branch of the handler returns is the one with the entry already
deleted), and a second IssueCertificate call for the same peer with no
intervening add_ecdh aborts with PERMISSION_DENIED. -/
theorem IssueCertificate_consumes_entry
    (st : MASCServicer) (cb cb2 : String → Certificate → Bool) (peer : String)
    (req req2 : IssueCertificateRequest) (now now2 : Int) (n1 n2 n3 n4 : Bytes)
    (hwf : st.ecdhs.WF)
    (hstar : dictContains st.ecdhs.entries "*" = false)
    (hpres : ((st.ecdhs.getitem now peer).2).isSome = true) :
    dictContains (st.IssueCertificate cb peer req now n1 n2).1.ecdhs.entries peer = false ∧
    ((st.IssueCertificate cb peer req now n1 n2).1.IssueCertificate cb2 peer req2 now2
      n3 n4).2 = .aborted EPERM detail_no_ecdh := by
  obtain ⟨e, hget⟩ := Option.isSome_iff_exists.mp hpres
  have hst : (st.IssueCertificate cb peer req now n1 n2).1 =
      { st with ecdhs := ((st.ecdhs.getitem now peer).1.delitem peer).1 } := by
    unfold MASCServicer.IssueCertificate
    rw [hget]
  have hpeer_false :
      dictContains ((st.ecdhs.getitem now peer).1.delitem peer).1.entries peer = false :=
    delitem_fst_contains_false (getitem_fst_WF hwf now peer) (getitem_snd_some_contains hget)
  have hstar_false :
      dictContains ((st.ecdhs.getitem now peer).1.delitem peer).1.entries "*" = false :=
    dictContains_eq_false_of_sublist
      ((delitem_fst_entries_sublist _ _).trans (getitem_fst_entries_sublist st.ecdhs now peer))
      hstar
  constructor
  · rw [hst]
    exact hpeer_false
  · rw [hst]
    exact IssueCertificate_of_absent _ cb2 peer req2 now2 n3 n4 hpeer_false hstar_false

/-- C1 witness: a servicer holding an approved ECDH for peerA; the first
call consumes it and the second call is denied. -/
theorem IssueCertificate_consumes_entry_witness :
    (masc0.ecdhs.WF ∧
     dictContains masc0.ecdhs.entries "*" = false ∧
     ((masc0.ecdhs.getitem 0 "peerA").2).isSome = true) ∧
    (dictContains (masc0.IssueCertificate (fun _ _ => true) "peerA" req0 0 nonceB
        nonceC).1.ecdhs.entries "peerA" = false ∧
     ((masc0.IssueCertificate (fun _ _ => true) "peerA" req0 0 nonceB
        nonceC).1.IssueCertificate (fun _ _ => true) "peerA" req0 1 nonceB nonceC).2 =
       .aborted EPERM detail_no_ecdh) :=
  ⟨⟨by decide, by decide, by decide⟩,
   IssueCertificate_consumes_entry masc0 (fun _ _ => true) (fun _ _ => true) "peerA" req0
     req0 0 1 nonceB nonceC nonceB nonceC (by decide) (by decide) (by decide)⟩

/-- C2: when the pending entry of the calling peer holds None (ECDH done,
human verification outstanding), IssueCertificate aborts with the distinct
UNAUTHENTICATED status whose only detail is the fixed pending message, and
the consumed entry is not restored: the peer is absent from the store
afterwards. -/
theorem IssueCertificate_pending_reply
    (st : MASCServicer) (cb : String → Certificate → Bool) (peer : String)
    (req : IssueCertificateRequest) (now : Int) (n1 n2 : Bytes)
    (hwf : st.ecdhs.WF)
    (hpend : (st.ecdhs.getitem now peer).2 = some none) :
    (st.IssueCertificate cb peer req now n1 n2).2 = .aborted EWAIT detail_pending ∧
    dictContains (st.IssueCertificate cb peer req now n1 n2).1.ecdhs.entries peer = false ∧
    EWAIT ≠ EPERM := by
  have hst : (st.IssueCertificate cb peer req now n1 n2).1 =
      { st with ecdhs := ((st.ecdhs.getitem now peer).1.delitem peer).1 } := by
    unfold MASCServicer.IssueCertificate
    rw [hpend]
  have hres : (st.IssueCertificate cb peer req now n1 n2).2 =
      MASCServicer.issueBody st.server_certificate cb peer req n1 n2 none := by
    unfold MASCServicer.IssueCertificate
    rw [hpend]
  refine ⟨by rw [hres]; rfl, ?_, by decide⟩
  rw [hst]
  exact delitem_fst_contains_false (getitem_fst_WF hwf now peer)
    (getitem_snd_some_contains hpend)

/-- C2 witness: a servicer holding the None placeholder for peerA. -/
theorem IssueCertificate_pending_reply_witness :
    (mascPending0.ecdhs.WF ∧
     (mascPending0.ecdhs.getitem 0 "peerA").2 = some none) ∧
    ((mascPending0.IssueCertificate (fun _ _ => true) "peerA" req0 0 nonceB nonceC).2 =
       .aborted EWAIT detail_pending ∧
     dictContains (mascPending0.IssueCertificate (fun _ _ => true) "peerA" req0 0 nonceB
       nonceC).1.ecdhs.entries "peerA" = false ∧
     EWAIT ≠ EPERM) :=
  ⟨⟨by decide, by decide⟩,
   IssueCertificate_pending_reply mascPending0 (fun _ _ => true) "peerA" req0 0 nonceB
     nonceC (by decide) (by decide)⟩

/-- C5: ServerPubkey consumes the stored initiator key of the calling peer
whatever the outcome of the call, so a second ServerPubkey call with no
intervening ClientPubkey aborts with PERMISSION_DENIED, and a call that
finds no stored key aborts with PERMISSION_DENIED. -/
theorem ServerPubkey_consumes_and_denies_second
    (st : ECDHServicer) (cb cb2 : String → CompletedECDH → Bool) (peer : String)
    (now now2 : Int) (s s2 : ECDHKeyPair)
    (hwf : st.peers.WF) :
    dictContains (st.ServerPubkey cb peer now s).1.peers.entries peer = false ∧
    ((st.ServerPubkey cb peer now s).1.ServerPubkey cb2 peer now2 s2).2 =
      .aborted EPERM detail_invalid_ecdh ∧
    ((st.peers.getitem now peer).2 = none →
      (st.ServerPubkey cb peer now s).2 = .aborted EPERM detail_invalid_ecdh) := by
  have hmain : dictContains (st.ServerPubkey cb peer now s).1.peers.entries peer = false := by
    cases hget : (st.peers.getitem now peer).2 with
    | none =>
      have hst : (st.ServerPubkey cb peer now s).1 = ⟨(st.peers.getitem now peer).1⟩ := by
        unfold ECDHServicer.ServerPubkey
        rw [hget]
      rw [hst]
      have h1 : dictGet? (st.peers.getitem now peer).1.entries peer = none := by
        have h2 := hget
        rw [getitem_snd_eq] at h2
        exact Option.map_eq_none'.mp h2
      rw [dictContains_eq_false_iff]
      exact h1
    | some pk =>
      have hst : (st.ServerPubkey cb peer now s).1 =
          ⟨((st.peers.getitem now peer).1.delitem peer).1⟩ := by
        unfold ECDHServicer.ServerPubkey
        rw [hget]
        by_cases hcb : cb peer (ECDHKeyPair.run s pk) <;> simp [hcb]
      rw [hst]
      exact delitem_fst_contains_false (getitem_fst_WF hwf now peer)
        (getitem_snd_some_contains hget)
  refine ⟨hmain, ?_, ?_⟩
  · exact ServerPubkey_of_absent _ cb2 peer now2 s2 hmain
  · intro h
    unfold ECDHServicer.ServerPubkey
    rw [h]

/-- C5 witness: a servicer with a stored key for peerA; the key is
consumed and the second call is denied. -/
theorem ServerPubkey_consumes_and_denies_second_witness :
    ecdhServicer0.peers.WF ∧
    (dictContains (ecdhServicer0.ServerPubkey (fun _ _ => true) "peerA" 0
        ⟨5⟩).1.peers.entries "peerA" = false ∧
     ((ecdhServicer0.ServerPubkey (fun _ _ => true) "peerA" 0 ⟨5⟩).1.ServerPubkey
        (fun _ _ => true) "peerA" 1 ⟨6⟩).2 = .aborted EPERM detail_invalid_ecdh ∧
     ((ecdhServicer0.peers.getitem 0 "peerA").2 = none →
      (ecdhServicer0.ServerPubkey (fun _ _ => true) "peerA" 0 ⟨5⟩).2 =
        .aborted EPERM detail_invalid_ecdh)) :=
  ⟨by decide, ServerPubkey_consumes_and_denies_second ecdhServicer0 (fun _ _ => true)
    (fun _ _ => true) "peerA" 0 1 ⟨5⟩ ⟨6⟩ (by decide)⟩

/-- C6 counterexample: ClientPubkey does not acknowledge every request.
On bytes that do not parse as a public key, PEM.to_ecpubkey raises before
the store is touched: the call crashes (gRPC reports UNKNOWN), returns no
empty ack, and records nothing. -/
theorem ClientPubkey_malformed_crashes :
    (ECDHServicer.init.ClientPubkey "peerA" (.invalidPEM []) 0).2 = .crashed err_load_pem ∧
    (ECDHServicer.init.ClientPubkey "peerA" (.invalidPEM []) 0).2 ≠ .ok ⟨⟩ ∧
    (ECDHServicer.init.ClientPubkey "peerA" (.invalidPEM []) 0).1.peers.entries = [] := by
  decide

/-- C6 (amended): for every request whose bytes parse as a PEM-encoded EC
public key, ClientPubkey records the parsed key in the peers store (a
TimedDict with TTL 60 and capacity 16) and returns the empty
acknowledgement with no error status; bytes that fail to parse, or that
parse as a non-EC key, raise inside PEM.to_ecpubkey before the store is
touched, and the handler crashes instead of acknowledging. -/
theorem ClientPubkey_parsed_key_recorded (st : ECDHServicer) (peer : String) (n : Nat)
    (now : Int) (b : Bytes) (m : Nat) :
    st.ClientPubkey peer (.ecKeyPEM n) now =
      (⟨st.peers.setitem now peer ⟨n⟩⟩, .ok ⟨⟩) ∧
    st.ClientPubkey peer (.invalidPEM b) now = (st, .crashed err_load_pem) ∧
    st.ClientPubkey peer (.otherKeyPEM m) now = (st, .crashed err_not_ec) ∧
    ECDHServicer.init.peers.timeout = 60 ∧
    ECDHServicer.init.peers.size_limit = 16 :=
  ⟨rfl, rfl, rfl, rfl, rfl⟩

/-- C7: on the success path, IssueCertificate seals the issued certificate
and the server certificate separately under the same derived key, each
with its own freshly generated 12-byte nonce used both as AEAD nonce and
as associated data and echoed in the reply; the client decryption with the
same key and the returned nonces recovers exactly the two certificate
PEMs, and decryption under a different key or nonce fails. -/
theorem IssueCertificate_masc_roundtrip
    (st : MASCServicer) (cb : String → Certificate → Bool) (peer : String)
    (csr : CertificateSigningRequest) (now : Int) (e : CompletedECDH) (n0 n1 n2 : Bytes)
    (hok : (st.ecdhs.getitem now peer).2 = some (some e))
    (hcb : cb peer (issue_certificate_from_csr csr st.server_certificate) = true)
    (_h0 : n0.length = 12) (_h1 : n1.length = 12) (_h2 : n2.length = 12) :
    (st.IssueCertificate cb peer (MASCClient_build_request e.derived_key csr n0) now
      n1 n2).2 =
      .ok (mascExpectedReply e.derived_key
        (issue_certificate_from_csr csr st.server_certificate) st.server_certificate
        n1 n2) ∧
    MASCClient_decrypt_reply e.derived_key
      (mascExpectedReply e.derived_key
        (issue_certificate_from_csr csr st.server_certificate) st.server_certificate
        n1 n2) =
      some (PEM_from_rsa_certificate (issue_certificate_from_csr csr st.server_certificate),
        PEM_from_rsa_certificate st.server_certificate) ∧
    (∀ k2, k2 ≠ e.derived_key →
      MASCClient_decrypt_reply k2
        (mascExpectedReply e.derived_key
          (issue_certificate_from_csr csr st.server_certificate) st.server_certificate
          n1 n2) = none) ∧
    (∀ n3, n3 ≠ n1 →
      chachaDecrypt e.derived_key n3
        (mascExpectedReply e.derived_key
          (issue_certificate_from_csr csr st.server_certificate) st.server_certificate
          n1 n2).EncryptedClientCertificate n3 = none) ∧
    (∀ n3, n3 ≠ n2 →
      chachaDecrypt e.derived_key n3
        (mascExpectedReply e.derived_key
          (issue_certificate_from_csr csr st.server_certificate) st.server_certificate
          n1 n2).EncryptedServerCertificate n3 = none) := by
  have hres : (st.IssueCertificate cb peer (MASCClient_build_request e.derived_key csr n0)
      now n1 n2).2 =
      MASCServicer.issueBody st.server_certificate cb peer
        (MASCClient_build_request e.derived_key csr n0) n1 n2 (some e) := by
    unfold MASCServicer.IssueCertificate
    rw [hok]
  refine ⟨?_, ?_, ?_, ?_, ?_⟩
  · rw [hres]
    simp [MASCServicer.issueBody, MASCClient_build_request, chachaDecrypt, chachaEncrypt,
      PEM_to_rsa_csr, PEM_from_rsa_csr, hcb, mascExpectedReply]
  · simp [MASCClient_decrypt_reply, mascExpectedReply, chachaDecrypt, chachaEncrypt]
  · intro k2 hk2
    simp [MASCClient_decrypt_reply, mascExpectedReply, chachaDecrypt, chachaEncrypt,
      Ne.symm hk2]
  · intro n3 hn3
    simp [mascExpectedReply, chachaDecrypt, chachaEncrypt, Ne.symm hn3]
  · intro n3 hn3
    simp [mascExpectedReply, chachaDecrypt, chachaEncrypt, Ne.symm hn3]

/-- C7 witness: the round trip at a concrete servicer, key and nonces. -/
theorem IssueCertificate_masc_roundtrip_witness :
    ((masc0.ecdhs.getitem 0 "peerA").2 = some (some ecdh0) ∧
     nonceA.length = 12 ∧ nonceB.length = 12 ∧ nonceC.length = 12) ∧
    (masc0.IssueCertificate (fun _ _ => true) "peerA"
        (MASCClient_build_request ecdh0.derived_key csr0 nonceA) 0 nonceB nonceC).2 =
      .ok (mascExpectedReply ecdh0.derived_key
        (issue_certificate_from_csr csr0 masc0.server_certificate)
        masc0.server_certificate nonceB nonceC) :=
  ⟨⟨by decide, by decide, by decide, by decide⟩,
   (IssueCertificate_masc_roundtrip masc0 (fun _ _ => true) "peerA" csr0 0 ecdh0 nonceA
      nonceB nonceC (by decide) rfl (by decide) (by decide) (by decide)).1⟩

/-- C8: evaluating ServerPubkey at the failing input.  ecdhServicer0 holds
a stored initiator key for peerA; the completion callback rejects.  The
stored key is consumed and the call crashes with the TypeError raised by
the single-argument context.abort call on ecdh.py line 80, instead of
aborting with PERMISSION_DENIED as the specification intends. -/
theorem ServerPubkey_rejection_raises_typeerror :
    (ecdhServicer0.ServerPubkey (fun _ _ => false) "peerA" 0 ⟨5⟩).2 =
      .crashed err_abort_one_arg ∧
    (ecdhServicer0.ServerPubkey (fun _ _ => false) "peerA" 0 ⟨5⟩).2 ≠
      .aborted EPERM detail_invalid_ecdh ∧
    dictContains
      (ecdhServicer0.ServerPubkey (fun _ _ => false) "peerA" 0 ⟨5⟩).1.peers.entries
      "peerA" = false := by decide

end ServicerClaims

end HassMpris
